import Mathlib

/-!
Verification of the bin-packing local-search core (`src/core/state.py`,
`src/core/objective_function.py`, `src/algorithms/*.py`).

States are shallowly embedded: the item catalog (a Python dict `{id: size}`)
becomes an association list `List (String × Nat)`, containers become
`List (List String)`, and the fallible Python list operations (`list.remove`
raises `ValueError`, indexing raises `IndexError`) become `Option`-valued
functions.  Every random draw made by an algorithm is threaded in as an
explicit oracle argument.
-/

namespace BinPack

/-- Model of `State` (`src/core/state.py`): an item catalog `{id: size}`,
a container capacity, and a list of containers holding item ids. -/
structure BPState where
  items : List (String × Nat)
  capacity : Nat
  containers : List (List String)
deriving Repr, DecidableEq

/-- Size lookup in the catalog (`self.items[item_id]`); the claims only ever
apply it to ids present in the catalog, so missing ids default to 0. -/
def sizeLookup (items : List (String × Nat)) (id : String) : Nat :=
  ((items.find? (fun p => p.1 = id)).map Prod.snd).getD 0

/-- Load of one container: `sum(self.items[i] for i in container)`. -/
def contLoad (items : List (String × Nat)) (c : List String) : Nat :=
  (c.map (sizeLookup items)).sum

/-- Model of `State.get_container_load`: total size of the items in container `idx`. -/
def BPState.get_container_load (s : BPState) (idx : Nat) : Nat :=
  contLoad s.items (s.containers.getD idx [])

/-- Model of `State.is_valid`: no container load exceeds the capacity. -/
def BPState.is_valid (s : BPState) : Bool :=
  s.containers.all (fun c => contLoad s.items c ≤ s.capacity)

/-- Model of `State.num_containers`: number of non-empty containers. -/
def BPState.num_containers (s : BPState) : Nat :=
  (s.containers.filter (fun c => c.length > 0)).length

/-- Model of `State.copy`: a deep copy; in the value model this is the identity. -/
def BPState.copy (s : BPState) : BPState := s

/-- Model of Python `list.remove(x)`: removes the first occurrence of `x`,
raising `ValueError` (here: `none`) when `x` is absent. -/
def pyRemove (l : List String) (x : String) : Option (List String) :=
  if x ∈ l then some (l.erase x) else none

/-- Empty-container pruning `[c for c in containers if len(c) > 0]`. -/
def pruneEmpty (cs : List (List String)) : List (List String) :=
  cs.filter (fun c => c.length > 0)

/-- Model of `State.move_item(item_id, from_idx, to_idx)`: remove the item from the
source container, append it to the target (appending a brand-new container
when `to_idx == -1` or `to_idx >= len(containers)`), then prune empties.
`none` models the `IndexError` / `ValueError` the Python code raises. -/
def BPState.move_item (s : BPState) (item_id : String) (from_idx : Nat)
    (to_idx : Int) : Option BPState :=
  if from_idx < s.containers.length then
    match pyRemove (s.containers.getD from_idx []) item_id with
    | none => none
    | some c' =>
      let cs := s.containers.set from_idx c'
      if to_idx = -1 ∨ to_idx ≥ (cs.length : Int) then
        some ⟨s.items, s.capacity, pruneEmpty (cs ++ [[item_id]])⟩
      else if to_idx ≥ 0 then
        some ⟨s.items, s.capacity,
          pruneEmpty (cs.set to_idx.toNat ((cs.getD to_idx.toNat []) ++ [item_id]))⟩
      else
        -- Python resolves a negative index `to_idx < -1` from the right,
        -- raising IndexError when it falls off the front
        if (cs.length : Int) + to_idx ≥ 0 then
          let j := ((cs.length : Int) + to_idx).toNat
          some ⟨s.items, s.capacity,
            pruneEmpty (cs.set j ((cs.getD j []) ++ [item_id]))⟩
        else none
  else none

/-- Model of `State.swap_items(item1, c1, item2, c2)`: the four in-place list
mutations of the Python code performed sequentially (so the model is faithful
even when `c1 == c2`, where both index expressions alias one list), then
empty-container pruning. -/
def BPState.swap_items (s : BPState) (item1_id : String) (c1 : Nat)
    (item2_id : String) (c2 : Nat) : Option BPState :=
  if c1 < s.containers.length ∧ c2 < s.containers.length then
    match pyRemove (s.containers.getD c1 []) item1_id with
    | none => none
    | some v1 =>
      let cs1 := s.containers.set c1 v1
      match pyRemove (cs1.getD c2 []) item2_id with
      | none => none
      | some v2 =>
        let cs2 := cs1.set c2 v2
        let cs3 := cs2.set c1 ((cs2.getD c1 []) ++ [item2_id])
        let cs4 := cs3.set c2 ((cs3.getD c2 []) ++ [item1_id])
        some ⟨s.items, s.capacity, pruneEmpty cs4⟩
  else none

/-- Catalog of a state: the ids of its item dictionary. -/
def BPState.catalog (s : BPState) : List String := s.items.map Prod.fst

/-- Strict-partition invariant of the spec: every catalog item sits in
exactly one container, and containers hold only catalog items. -/
def partitionOf (catalog : List String) (cs : List (List String)) : Prop :=
  (∀ x ∈ catalog, cs.flatten.count x = 1) ∧ (∀ x ∈ cs.flatten, x ∈ catalog)

instance (catalog : List String) (cs : List (List String)) :
    Decidable (partitionOf catalog cs) := by
  unfold partitionOf; infer_instance

/-! ### Counting lemmas about the container-list surgery -/

theorem flatten_set_count (cs : List (List String)) (i : Nat) (v : List String)
    (x : String) (hi : i < cs.length) :
    ((cs.set i v).flatten.count x) + ((cs.getD i []).count x)
      = cs.flatten.count x + v.count x := by
  induction cs generalizing i with
  | nil => simp at hi
  | cons c cs ih =>
    cases i with
    | zero =>
      simp [List.flatten_cons, List.count_append]
      omega
    | succ n =>
      have hn : n < cs.length := by simpa using hi
      have := ih n hn
      have hset : (c :: cs).set (n + 1) v = c :: cs.set n v := rfl
      rw [hset]
      simp only [List.flatten_cons, List.count_append, List.getD_cons_succ]
      omega

theorem flatten_pruneEmpty (cs : List (List String)) :
    (pruneEmpty cs).flatten = cs.flatten := by
  induction cs with
  | nil => rfl
  | cons c cs ih =>
    by_cases h : c.length > 0
    · simp_all [pruneEmpty, List.filter_cons, List.flatten_cons]
    · have hc : c = [] := by
        cases c with
        | nil => rfl
        | cons a l => simp at h
      subst hc
      simpa [pruneEmpty, List.filter_cons] using ih

theorem count_pyRemove (l v : List String) (a x : String)
    (h : pyRemove l a = some v) :
    v.count x + (if a = x then 1 else 0) = l.count x := by
  unfold pyRemove at h
  by_cases hm : a ∈ l
  · simp [hm] at h
    subst h
    rw [List.count_erase x a l]
    by_cases hax : a = x
    · subst hax
      have : 1 ≤ l.count a := List.one_le_count_iff.mpr hm
      simp only [beq_self_eq_true, if_true]
      omega
    · have : (a == x) = false := by simpa using hax
      simp [this, hax]
  · simp [hm] at h

theorem flatten_append_at_count (cs : List (List String)) (j : Nat) (item x : String)
    (hj : j < cs.length) :
    ((cs.set j ((cs.getD j []) ++ [item])).flatten.count x)
      = cs.flatten.count x + List.count x [item] := by
  have h := flatten_set_count cs j ((cs.getD j []) ++ [item]) x hj
  rw [List.count_append] at h
  omega

theorem move_item_flatten_count (s : BPState) (it : String) (fi : Nat) (ti : Int)
    (s' : BPState) (h : s.move_item it fi ti = some s') (x : String) :
    s'.containers.flatten.count x = s.containers.flatten.count x := by
  unfold BPState.move_item at h
  by_cases hfi : fi < s.containers.length
  · rw [if_pos hfi] at h
    cases hrem : pyRemove (s.containers.getD fi []) it with
    | none => rw [hrem] at h; exact absurd h (by simp)
    | some c' =>
      rw [hrem] at h
      simp only at h
      have hcount := count_pyRemove _ _ _ x hrem
      have hset := flatten_set_count s.containers fi c' x hfi
      have hlen : (s.containers.set fi c').length = s.containers.length :=
        List.length_set ..
      by_cases h1 : ti = -1 ∨ ti ≥ (((s.containers.set fi c').length : Nat) : Int)
      · rw [if_pos h1] at h
        cases h
        rw [flatten_pruneEmpty, List.flatten_append, List.count_append]
        have : ([[it]] : List (List String)).flatten = [it] := rfl
        rw [this]
        have hone : List.count x [it] = if it = x then 1 else 0 := by
          by_cases hix : it = x
          · subst hix; simp
          · have : (it == x) = false := by simpa using hix
            simp [List.count_cons, this, hix]
        omega
      · rw [if_neg h1] at h
        by_cases h2 : ti ≥ 0
        · rw [if_pos h2] at h
          cases h
          have hj : ti.toNat < (s.containers.set fi c').length := by
            rw [hlen]; push_neg at h1; omega
          rw [flatten_pruneEmpty]
          have happ := flatten_append_at_count (s.containers.set fi c') ti.toNat it x hj
          have hone : List.count x [it] = if it = x then 1 else 0 := by
            by_cases hix : it = x
            · subst hix; simp
            · have : (it == x) = false := by simpa using hix
              simp [List.count_cons, this, hix]
          omega
        · rw [if_neg h2] at h
          by_cases h3 : (((s.containers.set fi c').length : Nat) : Int) + ti ≥ 0
          · rw [if_pos h3] at h
            cases h
            have hj : (((s.containers.set fi c').length : Int) + ti).toNat
                < (s.containers.set fi c').length := by
              push_neg at h1 h2; omega
            rw [flatten_pruneEmpty]
            have happ := flatten_append_at_count (s.containers.set fi c') _ it x hj
            have hone : List.count x [it] = if it = x then 1 else 0 := by
              by_cases hix : it = x
              · subst hix; simp
              · have : (it == x) = false := by simpa using hix
                simp [List.count_cons, this, hix]
            omega
          · rw [if_neg h3] at h; exact absurd h (by simp)
  · rw [if_neg hfi] at h; exact absurd h (by simp)

theorem swap_items_flatten_count (s : BPState) (it1 : String) (c1 : Nat)
    (it2 : String) (c2 : Nat) (s' : BPState)
    (h : s.swap_items it1 c1 it2 c2 = some s') (x : String) :
    s'.containers.flatten.count x = s.containers.flatten.count x := by
  unfold BPState.swap_items at h
  by_cases hidx : c1 < s.containers.length ∧ c2 < s.containers.length
  · rw [if_pos hidx] at h
    cases hrem1 : pyRemove (s.containers.getD c1 []) it1 with
    | none => rw [hrem1] at h; exact absurd h (by simp)
    | some v1 =>
      rw [hrem1] at h
      simp only at h
      cases hrem2 : pyRemove ((s.containers.set c1 v1).getD c2 []) it2 with
      | none => rw [hrem2] at h; exact absurd h (by simp)
      | some v2 =>
        rw [hrem2] at h
        simp only at h
        cases h
        have hc1 := hidx.1
        have hc2 := hidx.2
        have hcnt1 := count_pyRemove _ _ _ x hrem1
        have hcnt2 := count_pyRemove _ _ _ x hrem2
        have hs1 := flatten_set_count s.containers c1 v1 x hc1
        have hlen1 : (s.containers.set c1 v1).length = s.containers.length :=
          List.length_set ..
        have hc2' : c2 < (s.containers.set c1 v1).length := by rw [hlen1]; exact hc2
        have hs2 := flatten_set_count (s.containers.set c1 v1) c2 v2 x hc2'
        have hlen2 : ((s.containers.set c1 v1).set c2 v2).length
            = s.containers.length := by rw [List.length_set, hlen1]
        have hc1'' : c1 < ((s.containers.set c1 v1).set c2 v2).length := by
          rw [hlen2]; exact hc1
        have hs3 := flatten_append_at_count ((s.containers.set c1 v1).set c2 v2)
          c1 it2 x hc1''
        have hc2'' : c2 < (((s.containers.set c1 v1).set c2 v2).set c1
            (((s.containers.set c1 v1).set c2 v2).getD c1 [] ++ [it2])).length := by
          rw [List.length_set, hlen2]; exact hc2
        have hs4 := flatten_append_at_count
          (((s.containers.set c1 v1).set c2 v2).set c1
            (((s.containers.set c1 v1).set c2 v2).getD c1 [] ++ [it2])) c2 it1 x hc2''
        have hone1 : List.count x [it1] = if it1 = x then 1 else 0 := by
          by_cases hix : it1 = x
          · subst hix; simp
          · have : (it1 == x) = false := by simpa using hix
            simp [List.count_cons, this, hix]
        have hone2 : List.count x [it2] = if it2 = x then 1 else 0 := by
          by_cases hix : it2 = x
          · subst hix; simp
          · have : (it2 == x) = false := by simpa using hix
            simp [List.count_cons, this, hix]
        rw [flatten_pruneEmpty]
        omega
  · rw [if_neg hidx] at h; exact absurd h (by simp)

theorem partition_of_count_eq (catalog : List String)
    (cs cs' : List (List String))
    (hc : ∀ x, cs'.flatten.count x = cs.flatten.count x)
    (hp : partitionOf catalog cs) : partitionOf catalog cs' := by
  obtain ⟨h1, h2⟩ := hp
  constructor
  · intro x hx
    rw [hc x]; exact h1 x hx
  · intro x hx
    have : 0 < cs'.flatten.count x := List.count_pos_iff.mpr hx
    rw [hc x] at this
    exact h2 x (List.count_pos_iff.mp this)

/-! ### Objective function (`src/core/objective_function.py`) -/

/-- Weights of `ObjectiveFunction.__init__` (defaults 10000, 100, -10). -/
structure ObjWeights where
  penalty_overload_weight : ℚ
  container_count_weight : ℚ
  density_bonus_weight : ℚ
deriving Repr, DecidableEq

/-- Default weight values. -/
def defaultWeights : ObjWeights := ⟨10000, 100, -10⟩

/-- Model of `ObjectiveFunction._calculate_overload_penalty`: squared overload summed
over the containers (only containers with `load > capacity` contribute). -/
def overloadPenalty (s : BPState) : ℚ :=
  (s.containers.map (fun c =>
    let load := contLoad s.items c
    if load > s.capacity then ((load : ℚ) - (s.capacity : ℚ)) ^ 2 else 0)).sum

/-- Model of `ObjectiveFunction._calculate_density_score`: negated sum of squared
densities of the non-empty containers. -/
def densityScore (s : BPState) : ℚ :=
  -(s.containers.map (fun c =>
    if c.length > 0 then ((contLoad s.items c : ℚ) / (s.capacity : ℚ)) ^ 2
    else 0)).sum

/-- Model of `ObjectiveFunction.calculate`: weighted sum of the three components. -/
def calculate (w : ObjWeights) (s : BPState) : ℚ :=
  overloadPenalty s * w.penalty_overload_weight
    + (s.num_containers : ℚ) * w.container_count_weight
    + densityScore s * w.density_bonus_weight

/-- Overload penalty written exactly as the spec words it: the sum over
containers of `max(0, load - capacity)` squared. -/
def overloadPenaltySpec (s : BPState) : ℚ :=
  (s.containers.map (fun c =>
    (max 0 ((contLoad s.items c : ℚ) - (s.capacity : ℚ))) ^ 2)).sum

/-- Density score written exactly as the spec words it: the negated sum over
non-empty containers of `(load / capacity)` squared. -/
def densityScoreSpec (s : BPState) : ℚ :=
  -((s.containers.filter (fun c => c.length > 0)).map (fun c =>
    ((contLoad s.items c : ℚ) / (s.capacity : ℚ)) ^ 2)).sum

/-- Objective value written exactly as the spec words it. -/
def calculateSpec (w : ObjWeights) (s : BPState) : ℚ :=
  overloadPenaltySpec s * w.penalty_overload_weight
    + (s.num_containers : ℚ) * w.container_count_weight
    + densityScoreSpec s * w.density_bonus_weight

/-- The concrete scenario of the spec: items A:40 B:55 C:25 D:60,
capacity 100, containers `[A,B]` and `[C,D]` (first-fit order). -/
def exState : BPState :=
  ⟨[("A", 40), ("B", 55), ("C", 25), ("D", 60)], 100, [["A", "B"], ["C", "D"]]⟩

/-! ### First-fit repacking used by `GeneticAlgorithm.crossover` -/

/-- One step of the crossover's greedy repacking: place `item` in the first
container whose load stays within `cap`, else open a new container at the
end.  This is the inner `for container in containers_1` loop. -/
def ffInsert (items : List (String × Nat)) (cap : Nat) (item : String) :
    List (List String) → List (List String)
  | [] => [[item]]
  | c :: cs =>
      if contLoad items c + sizeLookup items item ≤ cap then (c ++ [item]) :: cs
      else c :: ffInsert items cap item cs

/-- The crossover's repacking of an item order (the shuffled deduplicated
union of the parents' items) into fresh containers, by first fit. -/
def ffPack (items : List (String × Nat)) (cap : Nat) (order : List String) :
    List (List String) :=
  order.foldl (fun cs it => ffInsert items cap it cs) []

/-- Python `dict.fromkeys`: keep the first occurrence of every element. -/
def pyDedup : List String → List String
  | [] => []
  | x :: xs => x :: pyDedup (xs.filter (fun y => y ≠ x))
termination_by l => l.length
decreasing_by
  simp only [List.length_cons]
  exact Nat.lt_succ_of_le (List.length_filter_le _ xs)

/-- Items appearing in a parent, in container order
(`[item for container in p.containers for item in container]`). -/
def itemsIn (p : BPState) : List String := p.containers.flatten

/-- Model of `GeneticAlgorithm.crossover`: both children repack the deduplicated union
of the parents' items; each child's item order is an independent shuffle,
passed in as an oracle `shuf`. -/
def crossover (items : List (String × Nat)) (cap : Nat)
    (p1 p2 : BPState) (shuf1 shuf2 : List String → List String) :
    BPState × BPState :=
  let combined := pyDedup (itemsIn p1 ++ itemsIn p2)
  (⟨items, cap, ffPack items cap (shuf1 combined)⟩,
   ⟨items, cap, ffPack items cap (shuf2 combined)⟩)

theorem ffInsert_flatten_count (items : List (String × Nat)) (cap : Nat)
    (item x : String) (cs : List (List String)) :
    (ffInsert items cap item cs).flatten.count x
      = cs.flatten.count x + List.count x [item] := by
  induction cs with
  | nil => simp [ffInsert]
  | cons c cs ih =>
    unfold ffInsert
    by_cases h : contLoad items c + sizeLookup items item ≤ cap
    · rw [if_pos h]
      simp only [List.flatten_cons, List.count_append]
      omega
    · rw [if_neg h]
      simp only [List.flatten_cons, List.count_append, ih]
      omega

theorem ffPack_flatten_count (items : List (String × Nat)) (cap : Nat)
    (order : List String) (x : String) :
    (ffPack items cap order).flatten.count x = order.count x := by
  suffices h : ∀ cs : List (List String),
      (order.foldl (fun cs it => ffInsert items cap it cs) cs).flatten.count x
        = cs.flatten.count x + order.count x by
    simpa [ffPack] using h []
  induction order with
  | nil => intro cs; simp
  | cons o os ih =>
    intro cs
    simp only [List.foldl_cons, ih, ffInsert_flatten_count, List.count_cons,
      List.count_nil]
    omega

theorem pyDedup_subset (l : List String) : ∀ x ∈ pyDedup l, x ∈ l := by
  induction l using pyDedup.induct with
  | case1 => intro x hx; simp [pyDedup] at hx
  | case2 a xs ih =>
    intro x hx
    rw [pyDedup] at hx
    rcases List.mem_cons.mp hx with h | h
    · subst h; exact List.mem_cons_self ..
    · exact List.mem_cons_of_mem _ ((List.mem_filter.mp (ih x h)).1)

theorem pyDedup_nodup (l : List String) : (pyDedup l).Nodup := by
  induction l using pyDedup.induct with
  | case1 => simp [pyDedup]
  | case2 a xs ih =>
    rw [pyDedup]
    refine List.nodup_cons.mpr ⟨?_, ih⟩
    intro hmem
    have := (List.mem_filter.mp (pyDedup_subset _ _ hmem)).2
    simp at this

theorem move_item_frame (s : BPState) (it : String) (fi : Nat) (ti : Int)
    (s' : BPState) (h : s.move_item it fi ti = some s') :
    s'.items = s.items ∧ s'.capacity = s.capacity := by
  unfold BPState.move_item at h
  by_cases hfi : fi < s.containers.length
  · rw [if_pos hfi] at h
    cases hrem : pyRemove (s.containers.getD fi []) it with
    | none => rw [hrem] at h; exact absurd h (by simp)
    | some c' =>
      rw [hrem] at h
      simp only at h
      split at h
      · cases h; exact ⟨rfl, rfl⟩
      · split at h
        · cases h; exact ⟨rfl, rfl⟩
        · split at h
          · cases h; exact ⟨rfl, rfl⟩
          · exact absurd h (by simp)
  · rw [if_neg hfi] at h; exact absurd h (by simp)

theorem swap_items_frame (s : BPState) (it1 : String) (c1 : Nat) (it2 : String)
    (c2 : Nat) (s' : BPState) (h : s.swap_items it1 c1 it2 c2 = some s') :
    s'.items = s.items ∧ s'.capacity = s.capacity := by
  unfold BPState.swap_items at h
  by_cases hidx : c1 < s.containers.length ∧ c2 < s.containers.length
  · rw [if_pos hidx] at h
    cases hrem1 : pyRemove (s.containers.getD c1 []) it1 with
    | none => rw [hrem1] at h; exact absurd h (by simp)
    | some v1 =>
      rw [hrem1] at h
      simp only at h
      cases hrem2 : pyRemove ((s.containers.set c1 v1).getD c2 []) it2 with
      | none => rw [hrem2] at h; exact absurd h (by simp)
      | some v2 =>
        rw [hrem2] at h
        simp only at h
        cases h
        exact ⟨rfl, rfl⟩
  · rw [if_neg hidx] at h; exact absurd h (by simp)

/-- C1 — after `move_item` (item a member of the source container, which is
what the `some` result encodes), after `swap_items` with two valid distinct
container indices, and for both `crossover` children (with the shuffles
modelled as arbitrary permutations), every catalog item is assigned to
exactly one container.  No feasibility hypothesis appears anywhere: the
invariant holds even when some container load exceeds the capacity. -/
theorem C1_partition_invariant :
    (∀ (s : BPState) (it : String) (fi : Nat) (ti : Int) (s' : BPState),
      partitionOf s.catalog s.containers →
      s.move_item it fi ti = some s' →
      partitionOf s'.catalog s'.containers)
    ∧ (∀ (s : BPState) (it1 : String) (c1 : Nat) (it2 : String) (c2 : Nat)
        (s' : BPState),
      partitionOf s.catalog s.containers →
      c1 < s.containers.length → c2 < s.containers.length → c1 ≠ c2 →
      s.swap_items it1 c1 it2 c2 = some s' →
      partitionOf s'.catalog s'.containers)
    ∧ (∀ (items : List (String × Nat)) (cap : Nat) (p1 p2 : BPState)
        (shuf1 shuf2 : List String → List String),
      (shuf1 (pyDedup (itemsIn p1 ++ itemsIn p2))).Perm
          (pyDedup (itemsIn p1 ++ itemsIn p2)) →
      (shuf2 (pyDedup (itemsIn p1 ++ itemsIn p2))).Perm
          (pyDedup (itemsIn p1 ++ itemsIn p2)) →
      partitionOf (pyDedup (itemsIn p1 ++ itemsIn p2))
          (crossover items cap p1 p2 shuf1 shuf2).1.containers
      ∧ partitionOf (pyDedup (itemsIn p1 ++ itemsIn p2))
          (crossover items cap p1 p2 shuf1 shuf2).2.containers) := by
  refine ⟨?_, ?_, ?_⟩
  · intro s it fi ti s' hp h
    have hcat : s'.catalog = s.catalog := by
      unfold BPState.catalog; rw [(move_item_frame s it fi ti s' h).1]
    rw [hcat]
    exact partition_of_count_eq _ _ _
      (fun x => move_item_flatten_count s it fi ti s' h x) hp
  · intro s it1 c1 it2 c2 s' hp _ _ _ h
    have hcat : s'.catalog = s.catalog := by
      unfold BPState.catalog; rw [(swap_items_frame s it1 c1 it2 c2 s' h).1]
    rw [hcat]
    exact partition_of_count_eq _ _ _
      (fun x => swap_items_flatten_count s it1 c1 it2 c2 s' h x) hp
  · intro items cap p1 p2 shuf1 shuf2 hperm1 hperm2
    have key : ∀ shuf : List String → List String,
        (shuf (pyDedup (itemsIn p1 ++ itemsIn p2))).Perm
            (pyDedup (itemsIn p1 ++ itemsIn p2)) →
        partitionOf (pyDedup (itemsIn p1 ++ itemsIn p2))
          (ffPack items cap (shuf (pyDedup (itemsIn p1 ++ itemsIn p2)))) := by
      intro shuf hperm
      constructor
      · intro x hx
        rw [ffPack_flatten_count, hperm.count_eq x]
        exact List.count_eq_one_of_mem (pyDedup_nodup _) hx
      · intro x hx
        have : 0 < (ffPack items cap
            (shuf (pyDedup (itemsIn p1 ++ itemsIn p2)))).flatten.count x :=
          List.count_pos_iff.mpr hx
        rw [ffPack_flatten_count, hperm.count_eq x] at this
        exact List.count_pos_iff.mp this
    exact ⟨key shuf1 hperm1, key shuf2 hperm2⟩

/-- Result of moving item A of the concrete scenario state into the second
container. -/
def exMoved : BPState :=
  ⟨[("A", 40), ("B", 55), ("C", 25), ("D", 60)], 100, [["B"], ["C", "D", "A"]]⟩

/-- Result of swapping items A and C of the concrete scenario state. -/
def exSwapped : BPState :=
  ⟨[("A", 40), ("B", 55), ("C", 25), ("D", 60)], 100, [["B", "C"], ["D", "A"]]⟩

theorem C1_partition_invariant_witness :
    (partitionOf exState.catalog exState.containers
      ∧ exState.move_item "A" 0 1 = some exMoved
      ∧ partitionOf exMoved.catalog exMoved.containers)
    ∧ (exState.swap_items "A" 0 "C" 1 = some exSwapped
      ∧ partitionOf exSwapped.catalog exSwapped.containers)
    ∧ partitionOf (pyDedup (itemsIn exState ++ itemsIn exState))
        (crossover exState.items 100 exState exState id id).1.containers := by
  have hp : partitionOf exState.catalog exState.containers := by decide
  have hmv : exState.move_item "A" 0 1 = some exMoved := by decide
  have hsw : exState.swap_items "A" 0 "C" 1 = some exSwapped := by decide
  refine ⟨⟨hp, hmv, C1_partition_invariant.1 exState "A" 0 1 exMoved hp hmv⟩,
    ⟨hsw, C1_partition_invariant.2.1 exState "A" 0 "C" 1 exSwapped hp
      (by decide) (by decide) (by decide) hsw⟩,
    (C1_partition_invariant.2.2 exState.items 100 exState exState id id
      (List.Perm.refl _) (List.Perm.refl _)).1⟩

theorem sum_map_ite_filter (p : List String → Prop) [DecidablePred p]
    (f : List String → ℚ) (l : List (List String)) :
    (l.map (fun c => if p c then f c else 0)).sum
      = ((l.filter (fun c => decide (p c))).map f).sum := by
  induction l with
  | nil => rfl
  | cons a l ih =>
    by_cases h : p a
    · simp [List.filter_cons, h, ih]
    · simp [List.filter_cons, h, ih]

theorem overloadPenalty_eq_spec (s : BPState) :
    overloadPenalty s = overloadPenaltySpec s := by
  unfold overloadPenalty overloadPenaltySpec
  congr 1
  apply List.map_congr_left
  intro c _
  by_cases h : contLoad s.items c > s.capacity
  · rw [if_pos h]
    have hlt : (s.capacity : ℚ) < (contLoad s.items c : ℚ) := by exact_mod_cast h
    rw [max_eq_right (by linarith)]
  · rw [if_neg h]
    have hle : (contLoad s.items c : ℚ) ≤ (s.capacity : ℚ) := by
      exact_mod_cast Nat.le_of_not_lt h
    rw [max_eq_left (by linarith)]
    norm_num

theorem densityScore_eq_spec (s : BPState) :
    densityScore s = densityScoreSpec s := by
  unfold densityScore densityScoreSpec
  rw [sum_map_ite_filter]

/-- C2 — `ObjectiveFunction.calculate` equals the spec's formula
`overload_penalty*W_o + container_count*W_c + density_score*W_d` (with the
components as the spec words them) for every state and every weight choice,
and on the concrete scenario state with default weights it returns exactly
216.25. -/
theorem C2_calculate_formula :
    (∀ (w : ObjWeights) (s : BPState), calculate w s = calculateSpec w s)
    ∧ calculate defaultWeights exState = 216.25 := by
  constructor
  · intro w s
    unfold calculate calculateSpec
    rw [overloadPenalty_eq_spec, densityScore_eq_spec]
  · have hAB : contLoad exState.items ["A", "B"] = 95 := by decide
    have hCD : contLoad exState.items ["C", "D"] = 85 := by decide
    have hn : exState.num_containers = 2 := by decide
    have hcap : exState.capacity = 100 := rfl
    have hcs : exState.containers = [["A", "B"], ["C", "D"]] := rfl
    simp only [calculate, overloadPenalty, densityScore, defaultWeights, hn,
      hcs, hcap, List.map_cons, List.map_nil, List.sum_cons, List.sum_nil,
      hAB, hCD]
    norm_num

/-- C6 counterexample — `swap_items` called with two equal container indices
does not fail fast: on the concrete scenario state it returns a State. -/
theorem C6_equal_swap_returns_state :
    exState.swap_items "A" 0 "B" 0
      = some ⟨[("A", 40), ("B", 55), ("C", 25), ("D", 60)], 100,
          [["B", "A"], ["C", "D"]]⟩ := by
  decide

/-- C6 (amended) — `move_item` with an item that is not a member of the
stated source container fails fast (no State is returned), and an
equal-index `swap_items` call, though it does not fail fast, never returns a
State with a corrupted partition. -/
theorem C6_fail_fast :
    (∀ (s : BPState) (it : String) (fi : Nat) (ti : Int),
      fi < s.containers.length → it ∉ s.containers.getD fi [] →
      s.move_item it fi ti = none)
    ∧ (∀ (s : BPState) (it1 it2 : String) (i : Nat) (s' : BPState),
      s.swap_items it1 i it2 i = some s' →
      partitionOf s.catalog s.containers →
      partitionOf s'.catalog s'.containers) := by
  constructor
  · intro s it fi ti hfi hmem
    unfold BPState.move_item
    rw [if_pos hfi]
    have : pyRemove (s.containers.getD fi []) it = none := by
      unfold pyRemove; rw [if_neg hmem]
    rw [this]
  · intro s it1 it2 i s' h hp
    have hcat : s'.catalog = s.catalog := by
      unfold BPState.catalog; rw [(swap_items_frame s it1 i it2 i s' h).1]
    rw [hcat]
    exact partition_of_count_eq _ _ _
      (fun x => swap_items_flatten_count s it1 i it2 i s' h x) hp

theorem C6_fail_fast_witness :
    (exState.move_item "C" 0 1 = none)
    ∧ (exState.swap_items "A" 0 "B" 0
        = some ⟨[("A", 40), ("B", 55), ("C", 25), ("D", 60)], 100,
            [["B", "A"], ["C", "D"]]⟩
      ∧ partitionOf
          (BPState.catalog ⟨[("A", 40), ("B", 55), ("C", 25), ("D", 60)], 100,
            [["B", "A"], ["C", "D"]]⟩)
          [["B", "A"], ["C", "D"]]) := by
  have hsw : exState.swap_items "A" 0 "B" 0
      = some ⟨[("A", 40), ("B", 55), ("C", 25), ("D", 60)], 100,
          [["B", "A"], ["C", "D"]]⟩ := by decide
  refine ⟨C6_fail_fast.1 exState "C" 0 1 (by decide) (by decide),
    hsw, C6_fail_fast.2 exState "A" "B" 0 _ hsw (by decide)⟩

/-! ### Heap model for the purity of move and swap (C7)

The Python transformation methods mutate list objects, so value semantics
alone cannot express "the receiver is unchanged".  Here a heap of list
objects makes the aliasing explicit: a container is a reference (index) into
the heap, `State.copy` allocates one fresh object per container
(`copy.deepcopy`), and the mutations of `move_item` / `swap_items`
(`remove`, `append`) write through references.  The receiver's containers
are exactly the heap cells below the pre-call heap size. -/

abbrev Heap := List (List String)

/-- Fresh references produced by `copy.deepcopy(self.containers)`: one new
object per container, appended after the existing heap. -/
def freshRefs (h : Heap) (refs : List Nat) : List Nat :=
  (List.range refs.length).map (fun i => h.length + i)

/-- Heap extension produced by `copy.deepcopy(self.containers)`. -/
def copyHeap (h : Heap) (refs : List Nat) : Heap :=
  h ++ refs.map (fun r => h.getD r [])

/-- Model of `State.move_item` on the object heap: deep-copy the receiver's
containers, then `remove`/`append` through the copy's references, then prune
references to empty objects. -/
def heapMoveItem (h : Heap) (refs : List Nat) (item : String)
    (fromIdx : Nat) (toIdx : Int) : Option (Heap × List Nat) :=
  let h1 := copyHeap h refs
  let nrefs := freshRefs h refs
  if fromIdx < nrefs.length then
    let r := nrefs.getD fromIdx 0
    match pyRemove (h1.getD r []) item with
    | none => none
    | some v =>
      let h2 := h1.set r v
      if toIdx = -1 ∨ toIdx ≥ (nrefs.length : Int) then
        let h3 := h2 ++ [[item]]
        some (h3, (nrefs ++ [h2.length]).filter
          (fun r2 => (h3.getD r2 []).length > 0))
      else if toIdx ≥ 0 then
        let r2 := nrefs.getD toIdx.toNat 0
        let h3 := h2.set r2 ((h2.getD r2 []) ++ [item])
        some (h3, nrefs.filter (fun r3 => (h3.getD r3 []).length > 0))
      else
        if (nrefs.length : Int) + toIdx ≥ 0 then
          let r2 := nrefs.getD ((nrefs.length : Int) + toIdx).toNat 0
          let h3 := h2.set r2 ((h2.getD r2 []) ++ [item])
          some (h3, nrefs.filter (fun r3 => (h3.getD r3 []).length > 0))
        else none
  else none

/-- Model of `State.swap_items` on the object heap: deep copy, then the four
`remove`/`append` mutations through the copy's references (aliasing when
`c1 = c2` is reproduced exactly), then pruning. -/
def heapSwapItems (h : Heap) (refs : List Nat) (item1 : String) (c1 : Nat)
    (item2 : String) (c2 : Nat) : Option (Heap × List Nat) :=
  let h1 := copyHeap h refs
  let nrefs := freshRefs h refs
  if c1 < nrefs.length ∧ c2 < nrefs.length then
    let r1 := nrefs.getD c1 0
    let r2 := nrefs.getD c2 0
    match pyRemove (h1.getD r1 []) item1 with
    | none => none
    | some v1 =>
      let h2 := h1.set r1 v1
      match pyRemove (h2.getD r2 []) item2 with
      | none => none
      | some v2 =>
        let h3 := h2.set r2 v2
        let h4 := h3.set r1 ((h3.getD r1 []) ++ [item2])
        let h5 := h4.set r2 ((h4.getD r2 []) ++ [item1])
        some (h5, nrefs.filter (fun r => (h5.getD r []).length > 0))
  else none

theorem getD_set_ne (l : Heap) (r i : Nat) (v : List String) (hne : i ≠ r) :
    (l.set r v).getD i [] = l.getD i [] := by
  simp [List.getD_eq_getElem?_getD, List.getElem?_set_ne (Ne.symm hne)]

theorem getD_append_lt (l t : Heap) (i : Nat) (hi : i < l.length) :
    (l ++ t).getD i [] = l.getD i [] :=
  List.getD_append _ _ _ _ hi

theorem freshRefs_getD_ge (h : Heap) (refs : List Nat) (k : Nat)
    (hk : k < refs.length) : (freshRefs h refs).getD k 0 = h.length + k := by
  unfold freshRefs
  have h1 : k < ((List.range refs.length).map (fun i => h.length + i)).length := by
    simpa using hk
  rw [List.getD_eq_getElem _ _ h1, List.getElem_map, List.getElem_range]

theorem freshRefs_length (h : Heap) (refs : List Nat) :
    (freshRefs h refs).length = refs.length := by
  simp [freshRefs]

theorem copyHeap_length (h : Heap) (refs : List Nat) :
    (copyHeap h refs).length = h.length + refs.length := by
  simp [copyHeap]

/-- C7 — purity of `move_item` and `swap_items` on the object heap: every
heap cell the receiver's container references can point to (everything
allocated before the call) dereferences to exactly the same item list after
the call, because the mutations write only through the fresh references
allocated by the deep copy. -/
theorem C7_receiver_unchanged :
    (∀ (h : Heap) (refs : List Nat) (item : String) (fi : Nat) (ti : Int)
        (res : Heap × List Nat),
      heapMoveItem h refs item fi ti = some res →
      ∀ i, i < h.length → res.1.getD i [] = h.getD i [])
    ∧ (∀ (h : Heap) (refs : List Nat) (it1 : String) (c1 : Nat) (it2 : String)
        (c2 : Nat) (res : Heap × List Nat),
      heapSwapItems h refs it1 c1 it2 c2 = some res →
      ∀ i, i < h.length → res.1.getD i [] = h.getD i []) := by
  constructor
  · intro h refs item fi ti res heq i hi
    unfold heapMoveItem at heq
    by_cases hfi : fi < (freshRefs h refs).length
    · rw [if_pos hfi] at heq
      have hfi' : fi < refs.length := by rwa [freshRefs_length] at hfi
      have hr : (freshRefs h refs).getD fi 0 = h.length + fi :=
        freshRefs_getD_ge h refs fi hfi'
      simp only at heq
      cases hrem : pyRemove ((copyHeap h refs).getD ((freshRefs h refs).getD fi 0) [])
          item with
      | none => rw [hrem] at heq; exact absurd heq (by simp)
      | some v =>
        rw [hrem] at heq
        simp only at heq
        have hstep1 : ∀ j, j < h.length →
            (((copyHeap h refs).set ((freshRefs h refs).getD fi 0) v)).getD j []
              = h.getD j [] := by
          intro j hj
          rw [getD_set_ne _ _ _ _ (by omega)]
          unfold copyHeap
          rw [getD_append_lt _ _ _ hj]
        have hlen2 : (((copyHeap h refs).set ((freshRefs h refs).getD fi 0) v)).length
            = h.length + refs.length := by
          rw [List.length_set, copyHeap_length]
        split at heq
        · injection heq with heq1
          subst heq1
          rw [getD_append_lt _ _ _ (by omega)]
          exact hstep1 i hi
        · split at heq
          · injection heq with heq1
            subst heq1
            have hti : ti.toNat < refs.length := by
              rename_i hcond1 hcond2
              push_neg at hcond1
              rw [freshRefs_length] at hcond1
              omega
            have hr2 : (freshRefs h refs).getD ti.toNat 0 = h.length + ti.toNat :=
              freshRefs_getD_ge h refs ti.toNat hti
            rw [getD_set_ne _ _ _ _ (by omega)]
            exact hstep1 i hi
          · split at heq
            · injection heq with heq1
              subst heq1
              have hti : (((freshRefs h refs).length : Int) + ti).toNat
                  < refs.length := by
                rename_i hcond1 hcond2 hcond3
                push_neg at hcond1 hcond2
                rw [freshRefs_length] at hcond1 hcond3 ⊢
                omega
              have hr2 := freshRefs_getD_ge h refs
                (((freshRefs h refs).length : Int) + ti).toNat hti
              rw [getD_set_ne _ _ _ _ (by omega)]
              exact hstep1 i hi
            · exact absurd heq (by simp)
    · rw [if_neg hfi] at heq; exact absurd heq (by simp)
  · intro h refs it1 c1 it2 c2 res heq i hi
    unfold heapSwapItems at heq
    by_cases hc : c1 < (freshRefs h refs).length ∧ c2 < (freshRefs h refs).length
    · rw [if_pos hc] at heq
      have hc1 : c1 < refs.length := by
        have := hc.1; rwa [freshRefs_length] at this
      have hc2 : c2 < refs.length := by
        have := hc.2; rwa [freshRefs_length] at this
      have hr1 : (freshRefs h refs).getD c1 0 = h.length + c1 :=
        freshRefs_getD_ge h refs c1 hc1
      have hr2 : (freshRefs h refs).getD c2 0 = h.length + c2 :=
        freshRefs_getD_ge h refs c2 hc2
      simp only at heq
      cases hrem1 : pyRemove ((copyHeap h refs).getD ((freshRefs h refs).getD c1 0) [])
          it1 with
      | none => rw [hrem1] at heq; exact absurd heq (by simp)
      | some v1 =>
        rw [hrem1] at heq
        simp only at heq
        cases hrem2 : pyRemove
            (((copyHeap h refs).set ((freshRefs h refs).getD c1 0) v1).getD
              ((freshRefs h refs).getD c2 0) []) it2 with
        | none => rw [hrem2] at heq; exact absurd heq (by simp)
        | some v2 =>
          rw [hrem2] at heq
          simp only at heq
          injection heq with heq1
          subst heq1
          rw [getD_set_ne _ _ _ _ (by omega), getD_set_ne _ _ _ _ (by omega),
            getD_set_ne _ _ _ _ (by omega), getD_set_ne _ _ _ _ (by omega)]
          unfold copyHeap
          rw [getD_append_lt _ _ _ hi]
    · rw [if_neg hc] at heq; exact absurd heq (by simp)

/-- Concrete heap for the purity witness: the scenario state's two
containers live at heap cells 0 and 1. -/
def exHeap : Heap := [["A", "B"], ["C", "D"]]

theorem C7_receiver_unchanged_witness :
    (heapMoveItem exHeap [0, 1] "A" 0 1).isSome = true
    ∧ ((heapMoveItem exHeap [0, 1] "A" 0 1).getD ([], [])).1.getD 0 []
        = ["A", "B"]
    ∧ ((heapMoveItem exHeap [0, 1] "A" 0 1).getD ([], [])).1.getD 1 []
        = ["C", "D"] := by
  have hsome : heapMoveItem exHeap [0, 1] "A" 0 1
      = some ((heapMoveItem exHeap [0, 1] "A" 0 1).getD ([], [])) := by decide
  refine ⟨by decide, ?_, ?_⟩
  · have := C7_receiver_unchanged.1 exHeap [0, 1] "A" 0 1 _ hsome 0 (by decide)
    rw [this]; decide
  · have := C7_receiver_unchanged.1 exHeap [0, 1] "A" 0 1 _ hsome 1 (by decide)
    rw [this]; decide

/-! ### Tournament selection (`GeneticAlgorithm.tournament_selection`) -/

/-- Stable insertion into a list sorted by strictly descending first
component: the new element goes after every element with a key ≥ its own,
modelling the stability of Python `sorted(..., reverse=True)`. -/
def insertDesc (x : ℚ × Nat) : List (ℚ × Nat) → List (ℚ × Nat)
  | [] => [x]
  | y :: ys => if x.1 < y.1 then y :: insertDesc x ys else x :: y :: ys

/-- Python `sorted(selected_list, key=lambda x: x[0], reverse=True)`:
a stable sort by fitness, descending. -/
def sortDesc (l : List (ℚ × Nat)) : List (ℚ × Nat) := l.foldr insertDesc []

/-- Model of `GeneticAlgorithm.tournament_selection`: the k calls to
`random.randint(0, len(fitness_list)-1)` are passed in as `draws`; the
sampled (fitness, index) pairs are sorted by fitness descending
(`reverse=True`) and the individuals at the two first sorted indices are
returned as parents. -/
def tournament_selection {α : Type} (population : List α) (dflt : α)
    (fitness : List ℚ) (draws : List Nat) : List α :=
  let selected_list := draws.map (fun i => (fitness.getD i 0, i))
  let sorted_selected := sortDesc selected_list
  [population.getD (sorted_selected.getD 0 (0, 0)).2 dflt,
   population.getD (sorted_selected.getD 1 (0, 0)).2 dflt]

/-- C3 — `tournament_selection` returns the two HIGHEST-fitness sampled
individuals, not the two lowest: sampling the whole population with
fitnesses 1 < 2 < 3 returns the individuals with fitness 3 and 2, and the
unique minimum-fitness individual is not among the returned parents. -/
theorem C3_tournament_returns_worst :
    tournament_selection ["P0", "P1", "P2"] "P0" [1, 2, 3] [0, 1, 2]
        = ["P2", "P1"]
    ∧ "P0" ∉ tournament_selection ["P0", "P1", "P2"] "P0" [1, 2, 3] [0, 1, 2] := by
  constructor
  · decide
  · decide

/-! ### RandomRestartHillClimbing constructor (C9) -/

/-- Modelled from `RandomRestartHillClimbing.__init__`, which rebuilds the
item catalog via `for container in initial_state.containers: for item_id,
size in container.items.items()`.  Each `container` is a plain Python list
of item ids, and a list has no attribute `items`, so the first loop
iteration raises `AttributeError` (`none`); only an empty containers list
skips the loop body and yields the empty catalog. -/
def rrRebuildItems (containers : List (List String)) :
    Option (List (String × Nat)) :=
  match containers with
  | [] => some []
  | _ :: _ => none

/-- C9 — constructing `RandomRestartHillClimbing` on the concrete scenario
state (or any state that actually has a container) fails with
`AttributeError` before a single restart can execute. -/
theorem C9_restart_constructor_crashes :
    rrRebuildItems exState.containers = none := by
  rfl

/-! ### Neighbor generation and the hill-climbing family
(`HillClimbingBase.generate_all_neighbors`, `src/algorithms/hill_climbing.py`)

Each driver's `solve` is modelled as value dynamics parameterized by the
evaluation function `f` (the `objective_function.calculate` method of the
instance handed to the driver; instantiating `f := calculate w` gives the
repository's objective) and by explicit oracles for every random draw. -/

/-- Model of `generate_all_neighbors`: every item moved to every other existing
container and to one new container, then every cross-container item pair
swapped (`j > i`).  The enumeration only issues calls whose preconditions
hold, so the `Option` results are collected with `filterMap`. -/
def allNeighbors (s : BPState) : List BPState :=
  let moves := (List.range s.containers.length).flatMap (fun fi =>
    (s.containers.getD fi []).flatMap (fun it =>
      ((List.range s.containers.length).filterMap (fun ti =>
        if ti ≠ fi then s.move_item it fi (ti : Int) else none))
      ++ (s.move_item it fi (-1)).toList))
  let swaps := (List.range s.containers.length).flatMap (fun i =>
    (s.containers.getD i []).flatMap (fun it1 =>
      (List.range s.containers.length).flatMap (fun j =>
        if j > i then
          (s.containers.getD j []).filterMap (fun it2 =>
            s.swap_items it1 i it2 j)
        else [])))
  moves ++ swaps

/-- Steepest-ascent neighbor scan: `best_neighbor_value` starts at the
current value and is replaced only by strictly smaller evaluations, so the
result is `none` exactly when no neighbor strictly improves on
`current_value` (the "STUCK" test of the code). -/
def pickBestLtAux (f : BPState → ℚ) (cv : ℚ) :
    Option (BPState × ℚ) → List BPState → Option (BPState × ℚ)
  | acc, [] => acc
  | none, n :: ns =>
      pickBestLtAux f cv (if f n < cv then some (n, f n) else none) ns
  | some (b, bv), n :: ns =>
      pickBestLtAux f cv
        (if f n < bv then some (n, f n) else some (b, bv)) ns

def pickBestLt (f : BPState → ℚ) (cv : ℚ) (ns : List BPState) :
    Option (BPState × ℚ) :=
  pickBestLtAux f cv none ns

/-- Sideways-move neighbor scan: `best_neighbor_value` starts at
`float('inf')` and ties are taken (`<=`), so any non-empty neighbor list
yields a minimum (the last one scanned among ties). -/
def pickBestLeAux (f : BPState → ℚ) :
    Option (BPState × ℚ) → List BPState → Option (BPState × ℚ)
  | acc, [] => acc
  | none, n :: ns => pickBestLeAux f (some (n, f n)) ns
  | some (b, bv), n :: ns =>
      pickBestLeAux f (if f n ≤ bv then some (n, f n) else some (b, bv)) ns

def pickBestLe (f : BPState → ℚ) (ns : List BPState) :
    Option (BPState × ℚ) :=
  pickBestLeAux f none ns

theorem pickBestLeAux_ne_none (f : BPState → ℚ) (ns : List BPState)
    (b : BPState) (bv : ℚ) : pickBestLeAux f (some (b, bv)) ns ≠ none := by
  induction ns generalizing b bv with
  | nil => simp [pickBestLeAux]
  | cons a l ih =>
    rw [pickBestLeAux]
    by_cases h : f a ≤ bv
    · rw [if_pos h]; exact ih a (f a)
    · rw [if_neg h]; exact ih b bv

/-- Model of `StochasticHillClimbing`'s candidate list: all neighbors strictly better
than the current value, paired with their evaluations. -/
def betterNeighbors (f : BPState → ℚ) (cv : ℚ) (ns : List BPState) :
    List (BPState × ℚ) :=
  ns.filterMap (fun n => let nv := f n
    if nv < cv then some (n, nv) else none)

/-- Model of `SteepestAscentHillClimbing.solve` loop: move to the strict-minimum
neighbor while one exists, tracking `best_state`/`best_value` via
`update_best_state`; stops at a local optimum, on an empty neighbor list, or
when the iteration budget runs out. -/
def steepestLoop (f : BPState → ℚ) :
    Nat → BPState → ℚ → BPState → ℚ → BPState × ℚ
  | 0, _, _, best, bv => (best, bv)
  | fuel + 1, cur, cv, best, bv =>
    let ns := allNeighbors cur
    if ns = [] then (best, bv)
    else
      match pickBestLt f cv ns with
      | none => (best, bv)
      | some (n, nv) =>
        if nv < bv then steepestLoop f fuel n nv n nv
        else steepestLoop f fuel n nv best bv

/-- Model of `SteepestAscentHillClimbing.solve`: the base class seeds
`best_state`/`best_value` from a copy of the caller's initial state. -/
def steepestSolve (f : BPState → ℚ) (maxIter : Nat) (s0 : BPState) :
    BPState × ℚ :=
  steepestLoop f maxIter s0 (f s0) s0 (f s0)

/-- Model of `StochasticHillClimbing.solve` loop: pick a uniformly random strictly
better neighbor (the draw is the oracle `pick`, reduced modulo the candidate
count) until none exists. -/
def stochasticLoop (f : BPState → ℚ) (pick : Nat → Nat) :
    Nat → Nat → BPState → ℚ → BPState → ℚ → BPState × ℚ
  | 0, _, _, _, best, bv => (best, bv)
  | fuel + 1, iter, cur, cv, best, bv =>
    let ns := allNeighbors cur
    if ns = [] then (best, bv)
    else
      let bn := betterNeighbors f cv ns
      if bn = [] then (best, bv)
      else
        let c := bn.getD (pick iter % bn.length) (cur, cv)
        if c.2 < bv then stochasticLoop f pick fuel (iter + 1) c.1 c.2 c.1 c.2
        else stochasticLoop f pick fuel (iter + 1) c.1 c.2 best bv

/-- Model of `StochasticHillClimbing.solve`. -/
def stochasticSolve (f : BPState → ℚ) (pick : Nat → Nat) (maxIter : Nat)
    (s0 : BPState) : BPState × ℚ :=
  stochasticLoop f pick maxIter 0 s0 (f s0) s0 (f s0)

/-- Stop outcome of `SidewaysMoveHillClimbing` (`self.stuck_reason`). -/
inductive SWStop
  | localOptimum
  | maxSidewaysReached
deriving Repr, DecidableEq

/-- Outcome of a `SidewaysMoveHillClimbing` run: the tracked best, the final
sideways counter (`total_sideways_moves` in `get_statistics`) and the
recorded stop reason (`None` when the iteration budget ran out or the
neighbor list was empty). -/
structure SWResult where
  best : BPState
  bestValue : ℚ
  sidewaysCount : Nat
  stuckReason : Option SWStop
deriving Repr, DecidableEq

/-- Model of `SidewaysMoveHillClimbing.solve` loop: take the `<=`-minimum neighbor;
a strict improvement resets the sideways counter, an equal value increments
it and stops with "max_sideways_reached" as soon as the counter reaches
`max_sideways_moves`, and a worse minimum stops with "local_optimum". -/
def sidewaysLoop (f : BPState → ℚ) (maxSw : Nat) :
    Nat → BPState → ℚ → Nat → BPState → ℚ → SWResult
  | 0, _, _, sc, best, bv => ⟨best, bv, sc, none⟩
  | fuel + 1, cur, cv, sc, best, bv =>
    let ns := allNeighbors cur
    if ns = [] then ⟨best, bv, sc, none⟩
    else
      match pickBestLe f ns with
      | none => ⟨best, bv, sc, some .localOptimum⟩
      | some (n, nv) =>
        if nv < cv then
          if nv < bv then sidewaysLoop f maxSw fuel n nv 0 n nv
          else sidewaysLoop f maxSw fuel n nv 0 best bv
        else if nv = cv then
          if sc + 1 ≥ maxSw then ⟨best, bv, sc + 1, some .maxSidewaysReached⟩
          else if cv < bv then sidewaysLoop f maxSw fuel n cv (sc + 1) n cv
          else sidewaysLoop f maxSw fuel n cv (sc + 1) best bv
        else ⟨best, bv, sc, some .localOptimum⟩

/-- Model of `SidewaysMoveHillClimbing.solve`. -/
def sidewaysSolve (f : BPState → ℚ) (maxSw maxIter : Nat) (s0 : BPState) :
    SWResult :=
  sidewaysLoop f maxSw maxIter s0 (f s0) 0 s0 (f s0)

/-- Model of `RandomRestartHillClimbing.solve` (given a successfully constructed
instance): restart 0 runs the base variant from a copy of the caller's
state, later restarts from the oracle-supplied regenerated state; the best
final state across restarts is kept (strict improvement). -/
def rrStep (f : BPState → ℚ) (baseRun : BPState → BPState)
    (restartInit : Nat → BPState) (s0 : BPState) (acc : BPState × ℚ)
    (r : Nat) : BPState × ℚ :=
  let init_r := if r = 0 then s0 else restartInit r
  let final := baseRun init_r
  let fv := f final
  if fv < acc.2 then (final, fv) else acc

def rrSolve (f : BPState → ℚ) (baseRun : BPState → BPState)
    (maxRestarts : Nat) (restartInit : Nat → BPState) (s0 : BPState) :
    BPState × ℚ :=
  (List.range maxRestarts).foldl (rrStep f baseRun restartInit s0) (s0, f s0)

/-! ### Genetic algorithm (`src/algorithms/genetic_algorithm.py`) -/

/-- Per-generation state of `GeneticAlgorithm.solve`: the population and its
fitness list, the tracked global best-ever (`None` before any generation,
modelling `global_best_value = float('inf')`), and the generation index. -/
structure GAState where
  pop : List BPState
  fitness : List ℚ
  globalBest : Option (ℚ × BPState)
  gen : Nat

/-- One generation of `GeneticAlgorithm.solve`: tournament-select two
parents, produce the two crossover children, mutate each (the mutation is
the oracle `muta`, indexed by the draw position), replace the population
with exactly those two children, recompute the fitness list, and update the
global best with this generation's minimum fitness (`fitness_list.index`
takes the first minimiser). -/
def gaGenStep (f : BPState → ℚ) (items : List (String × Nat)) (cap : Nat)
    (draws : Nat → List Nat) (shuf : Nat → List String → List String)
    (muta : Nat → BPState → BPState) (dflt : BPState) (st : GAState) :
    GAState :=
  let parents := tournament_selection st.pop dflt st.fitness (draws st.gen)
  let p1 := parents.getD 0 dflt
  let p2 := parents.getD 1 dflt
  let ch := crossover items cap p1 p2 (shuf (2 * st.gen)) (shuf (2 * st.gen + 1))
  let m1 := muta (2 * st.gen) ch.1
  let m2 := muta (2 * st.gen + 1) ch.2
  let bestFit := min (f m1) (f m2)
  let bestNow := if f m1 ≤ f m2 then m1 else m2
  let gb := match st.globalBest with
    | none => some (bestFit, bestNow)
    | some (gv, gs) =>
        if bestFit < gv then some (bestFit, bestNow) else some (gv, gs)
  ⟨[m1, m2], [f m1, f m2], gb, st.gen + 1⟩

/-- The generation loop of `GeneticAlgorithm.solve`. -/
def gaLoop (f : BPState → ℚ) (items : List (String × Nat)) (cap : Nat)
    (draws : Nat → List Nat) (shuf : Nat → List String → List String)
    (muta : Nat → BPState → BPState) (dflt : BPState) :
    Nat → GAState → GAState
  | 0, st => st
  | fuel + 1, st =>
      gaLoop f items cap draws shuf muta dflt fuel
        (gaGenStep f items cap draws shuf muta dflt st)

/-- The loop result of `GeneticAlgorithm.solve` started from the initial
population `initial_state :: extras` (`initialize_population` appends the
caller's state and then `population_size - 1` heuristically built states,
here the oracle list `extras`). -/
def gaFinal (f : BPState → ℚ) (items : List (String × Nat)) (cap : Nat)
    (draws : Nat → List Nat) (shuf : Nat → List String → List String)
    (muta : Nat → BPState → BPState) (extras : List BPState)
    (maxIter : Nat) (s0 : BPState) : GAState :=
  gaLoop f items cap draws shuf muta s0 maxIter
    ⟨s0 :: extras, (s0 :: extras).map f, none, 0⟩

/-- Model of `GeneticAlgorithm.solve` return value: the global best-ever, except that
a global best worse than the caller's original `initial_state` is replaced
by that original state (`if self.best_value > initial_value`). -/
def gaSolve (f : BPState → ℚ) (items : List (String × Nat)) (cap : Nat)
    (draws : Nat → List Nat) (shuf : Nat → List String → List String)
    (muta : Nat → BPState → BPState) (extras : List BPState)
    (maxIter : Nat) (s0 : BPState) : BPState × ℚ :=
  match (gaFinal f items cap draws shuf muta extras maxIter s0).globalBest with
  | none => (s0, f s0)
  | some (gv, gs) => if gv > f s0 then (s0, f s0) else (gs, gv)

/-! ### Simulated annealing (`src/algorithms/simulated_annealing.py`) -/

/-- Running state of `SimulatedAnnealing.solve`: current and best
state/value, temperature, the stuck-episode bookkeeping, the accepted-worse
counter and the per-iteration acceptance-probability and temperature logs. -/
structure SAState where
  cur : BPState
  cv : ℚ
  temp : ℚ
  prevBest : ℚ
  stuckCounter : Nat
  stuckCount : Nat
  acceptedWorse : Nat
  best : BPState
  bestValue : ℚ
  probLog : List ℝ
  tempLog : List ℚ

/-- Worsening-move acceptance probability: `exp(-delta / temperature)` when
the temperature is positive, and 0 otherwise (the `else` of
`if temperature > 0`). -/
noncomputable def saAcceptanceProb (delta T : ℚ) : ℝ :=
  if 0 < T then Real.exp (-((delta : ℝ) / (T : ℝ))) else 0

open Classical in
/-- The acceptance decision of one SA iteration together with the logged
probability: `delta < 0` and `delta == 0` accept with logged probability 1;
`delta > 0` accepts exactly when the uniform draw `u'` (one call to
`random.random()`) is below the acceptance probability. -/
noncomputable def saDecision (delta T : ℚ) (u' : ℝ) : Bool × ℝ :=
  if delta < 0 then (true, 1)
  else if delta = 0 then (true, 1)
  else
    (if u' < saAcceptanceProb delta T then true else false,
     saAcceptanceProb delta T)

open Classical in
/-- One iteration of `SimulatedAnnealing.solve`: draw a neighbor (the
oracle `neigh` stands for `_generate_random_neighbor`), decide acceptance,
update the stuck bookkeeping, update the best state, append the acceptance
probability and temperature to the logs, and cool geometrically. -/
noncomputable def saStep (f : BPState → ℚ) (neigh : Nat → BPState → BPState)
    (u : Nat → ℝ) (coolingRate : ℚ) (iter : Nat) (st : SAState) : SAState :=
  let nstate := neigh iter st.cur
  let nv := f nstate
  let delta := nv - st.cv
  let dec := saDecision delta st.temp (u iter)
  let cur' := if dec.1 then nstate else st.cur
  let cv' := if dec.1 then nv else st.cv
  let aw' := if dec.1 ∧ 0 < delta then st.acceptedWorse + 1
             else st.acceptedWorse
  let sctr := if dec.1 = false ∨ st.prevBest ≤ cv' then st.stuckCounter + 1
              else 0
  let sctr' := if sctr ≥ 10 then 0 else sctr
  let scount' := if sctr ≥ 10 then st.stuckCount + 1 else st.stuckCount
  let best' := if cv' < st.bestValue then cur' else st.best
  let bv' := if cv' < st.bestValue then cv' else st.bestValue
  ⟨cur', cv', st.temp * coolingRate, st.bestValue, sctr', scount', aw',
    best', bv', st.probLog ++ [dec.2], st.tempLog ++ [st.temp]⟩

/-- The iteration loop of `SimulatedAnnealing.solve`. -/
noncomputable def saLoop (f : BPState → ℚ) (neigh : Nat → BPState → BPState)
    (u : Nat → ℝ) (coolingRate : ℚ) : Nat → Nat → SAState → SAState
  | 0, _, st => st
  | fuel + 1, iter, st =>
      saLoop f neigh u coolingRate fuel (iter + 1)
        (saStep f neigh u coolingRate iter st)

/-- Model of `SimulatedAnnealing.solve` from the caller's initial state: empty logs,
temperature `initial_temp`, best seeded with the initial evaluation, and a
fixed iteration budget as the only termination. -/
noncomputable def saSolve (f : BPState → ℚ) (neigh : Nat → BPState → BPState)
    (u : Nat → ℝ) (maxIter : Nat) (initTemp coolingRate : ℚ)
    (s0 : BPState) : SAState :=
  saLoop f neigh u coolingRate maxIter 0
    ⟨s0, f s0, initTemp, f s0, 0, 0, 0, s0, f s0, [], []⟩

theorem pickBestLtAux_eval (f : BPState → ℚ) (cv : ℚ) (ns : List BPState) :
    ∀ (acc : Option (BPState × ℚ)),
      (∀ p : BPState × ℚ, acc = some p → p.2 = f p.1) →
      ∀ p : BPState × ℚ, pickBestLtAux f cv acc ns = some p → p.2 = f p.1 := by
  induction ns with
  | nil =>
    intro acc hacc p hp
    rw [pickBestLtAux] at hp
    exact hacc p hp
  | cons a l ih =>
    intro acc hacc p hp
    cases acc with
    | none =>
      rw [pickBestLtAux] at hp
      refine ih _ ?_ p hp
      intro q hq
      by_cases hlt : f a < cv
      · rw [if_pos hlt] at hq; cases hq; rfl
      · rw [if_neg hlt] at hq; exact absurd hq (by simp)
    | some pr =>
      obtain ⟨b, bv⟩ := pr
      rw [pickBestLtAux] at hp
      refine ih _ ?_ p hp
      intro q hq
      by_cases hlt : f a < bv
      · rw [if_pos hlt] at hq; cases hq; rfl
      · rw [if_neg hlt] at hq; cases hq; exact hacc (b, bv) rfl

theorem pickBestLt_eval (f : BPState → ℚ) (cv : ℚ) (ns : List BPState)
    (p : BPState × ℚ) (h : pickBestLt f cv ns = some p) : p.2 = f p.1 :=
  pickBestLtAux_eval f cv ns none (by intro q hq; exact absurd hq (by simp)) p h

theorem pickBestLeAux_eval (f : BPState → ℚ) (ns : List BPState) :
    ∀ (acc : Option (BPState × ℚ)),
      (∀ p : BPState × ℚ, acc = some p → p.2 = f p.1) →
      ∀ p : BPState × ℚ, pickBestLeAux f acc ns = some p → p.2 = f p.1 := by
  induction ns with
  | nil =>
    intro acc hacc p hp
    rw [pickBestLeAux] at hp
    exact hacc p hp
  | cons a l ih =>
    intro acc hacc p hp
    cases acc with
    | none =>
      rw [pickBestLeAux] at hp
      refine ih _ ?_ p hp
      intro q hq
      cases hq; rfl
    | some pr =>
      obtain ⟨b, bv⟩ := pr
      rw [pickBestLeAux] at hp
      refine ih _ ?_ p hp
      intro q hq
      by_cases hle : f a ≤ bv
      · rw [if_pos hle] at hq; cases hq; rfl
      · rw [if_neg hle] at hq; cases hq; exact hacc (b, bv) rfl

theorem pickBestLe_eval (f : BPState → ℚ) (ns : List BPState)
    (p : BPState × ℚ) (h : pickBestLe f ns = some p) : p.2 = f p.1 :=
  pickBestLeAux_eval f ns none (by intro q hq; exact absurd hq (by simp)) p h

theorem betterNeighbors_eval (f : BPState → ℚ) (cv : ℚ) (ns : List BPState)
    (p : BPState × ℚ) (hp : p ∈ betterNeighbors f cv ns) : p.2 = f p.1 := by
  unfold betterNeighbors at hp
  obtain ⟨n, _, hn⟩ := List.mem_filterMap.mp hp
  simp only at hn
  by_cases hlt : f n < cv
  · rw [if_pos hlt] at hn; cases hn; rfl
  · rw [if_neg hlt] at hn; exact absurd hn (by simp)

theorem steepestLoop_mono (f : BPState → ℚ) :
    ∀ (fuel : Nat) (cur : BPState) (cv : ℚ) (best : BPState) (bv : ℚ),
      bv = f best →
      (steepestLoop f fuel cur cv best bv).2 ≤ bv
      ∧ (steepestLoop f fuel cur cv best bv).2
          = f (steepestLoop f fuel cur cv best bv).1 := by
  intro fuel
  induction fuel with
  | zero => intro cur cv best bv hb; exact ⟨le_refl _, hb⟩
  | succ n ih =>
    intro cur cv best bv hb
    rw [steepestLoop]
    by_cases hns : allNeighbors cur = []
    · rw [if_pos hns]; exact ⟨le_refl _, hb⟩
    · rw [if_neg hns]
      cases hpick : pickBestLt f cv (allNeighbors cur) with
      | none => exact ⟨le_refl _, hb⟩
      | some p =>
        obtain ⟨m, mv⟩ := p
        have hmv : mv = f m := pickBestLt_eval f cv _ _ hpick
        dsimp only
        by_cases hlt : mv < bv
        · rw [if_pos hlt]
          have := ih m mv m mv hmv
          exact ⟨le_trans this.1 (le_of_lt hlt), this.2⟩
        · rw [if_neg hlt]
          exact ih m mv best bv hb

theorem stochasticLoop_mono (f : BPState → ℚ) (pick : Nat → Nat) :
    ∀ (fuel iter : Nat) (cur : BPState) (cv : ℚ) (best : BPState) (bv : ℚ),
      bv = f best →
      (stochasticLoop f pick fuel iter cur cv best bv).2 ≤ bv
      ∧ (stochasticLoop f pick fuel iter cur cv best bv).2
          = f (stochasticLoop f pick fuel iter cur cv best bv).1 := by
  intro fuel
  induction fuel with
  | zero => intro iter cur cv best bv hb; exact ⟨le_refl _, hb⟩
  | succ n ih =>
    intro iter cur cv best bv hb
    rw [stochasticLoop]
    by_cases hns : allNeighbors cur = []
    · rw [if_pos hns]; exact ⟨le_refl _, hb⟩
    · rw [if_neg hns]
      dsimp only
      by_cases hbn : betterNeighbors f cv (allNeighbors cur) = []
      · rw [if_pos hbn]; exact ⟨le_refl _, hb⟩
      · rw [if_neg hbn]
        have hlen : pick iter % (betterNeighbors f cv (allNeighbors cur)).length
            < (betterNeighbors f cv (allNeighbors cur)).length :=
          Nat.mod_lt _ (List.length_pos.mpr hbn)
        have hmem : (betterNeighbors f cv (allNeighbors cur)).getD
            (pick iter % (betterNeighbors f cv (allNeighbors cur)).length)
              (cur, cv)
            ∈ betterNeighbors f cv (allNeighbors cur) := by
          rw [List.getD_eq_getElem _ _ hlen]
          exact List.getElem_mem _
        have hc := betterNeighbors_eval f cv (allNeighbors cur) _ hmem
        by_cases hlt : ((betterNeighbors f cv (allNeighbors cur)).getD
            (pick iter % (betterNeighbors f cv (allNeighbors cur)).length)
              (cur, cv)).2 < bv
        · rw [if_pos hlt]
          refine ⟨le_trans (ih (iter + 1) _ _ _ _ hc).1 (le_of_lt hlt),
            (ih (iter + 1) _ _ _ _ hc).2⟩
        · rw [if_neg hlt]
          exact ih (iter + 1) _ _ _ _ hb

theorem sidewaysLoop_mono (f : BPState → ℚ) (maxSw : Nat) :
    ∀ (fuel : Nat) (cur : BPState) (cv : ℚ) (sc : Nat) (best : BPState)
      (bv : ℚ),
      (sidewaysLoop f maxSw fuel cur cv sc best bv).bestValue ≤ bv := by
  intro fuel
  induction fuel with
  | zero => intro cur cv sc best bv; rw [sidewaysLoop]
  | succ n ih =>
    intro cur cv sc best bv
    rw [sidewaysLoop]
    by_cases hns : allNeighbors cur = []
    · rw [if_pos hns]
    · rw [if_neg hns]
      cases hpick : pickBestLe f (allNeighbors cur) with
      | none => exact le_refl _
      | some p =>
        obtain ⟨m, mv⟩ := p
        dsimp only
        by_cases h1 : mv < cv
        · rw [if_pos h1]
          by_cases h2 : mv < bv
          · rw [if_pos h2]; exact le_trans (ih m mv 0 m mv) (le_of_lt h2)
          · rw [if_neg h2]; exact ih m mv 0 best bv
        · rw [if_neg h1]
          by_cases h2 : mv = cv
          · rw [if_pos h2]
            by_cases h3 : sc + 1 ≥ maxSw
            · rw [if_pos h3]
            · rw [if_neg h3]
              by_cases h4 : cv < bv
              · rw [if_pos h4]
                exact le_trans (ih m cv (sc + 1) m cv) (le_of_lt h4)
              · rw [if_neg h4]; exact ih m cv (sc + 1) best bv
          · rw [if_neg h2]

theorem sidewaysLoop_inv (f : BPState → ℚ) (maxSw : Nat) (hm : 1 ≤ maxSw) :
    ∀ (fuel : Nat) (cur : BPState) (cv : ℚ) (sc : Nat) (best : BPState)
      (bv : ℚ), sc < maxSw →
      (sidewaysLoop f maxSw fuel cur cv sc best bv).sidewaysCount ≤ maxSw
      ∧ ((sidewaysLoop f maxSw fuel cur cv sc best bv).stuckReason
            = some SWStop.maxSidewaysReached
          ↔ (sidewaysLoop f maxSw fuel cur cv sc best bv).sidewaysCount
              = maxSw) := by
  intro fuel
  induction fuel with
  | zero =>
    intro cur cv sc best bv hsc
    rw [sidewaysLoop]
    dsimp only
    refine ⟨le_of_lt hsc, ?_, ?_⟩
    · intro h; exact absurd h (by simp)
    · intro h; exact absurd h (by omega)
  | succ n ih =>
    intro cur cv sc best bv hsc
    rw [sidewaysLoop]
    by_cases hns : allNeighbors cur = []
    · rw [if_pos hns]
      dsimp only
      refine ⟨le_of_lt hsc, ?_, ?_⟩
      · intro h; exact absurd h (by simp)
      · intro h; exact absurd h (by omega)
    · rw [if_neg hns]
      cases hpick : pickBestLe f (allNeighbors cur) with
      | none =>
        dsimp only
        refine ⟨le_of_lt hsc, ?_, ?_⟩
        · intro h; exact absurd h (by simp)
        · intro h; exact absurd h (by omega)
      | some p =>
        obtain ⟨m, mv⟩ := p
        dsimp only
        by_cases h1 : mv < cv
        · rw [if_pos h1]
          by_cases h2 : mv < bv
          · rw [if_pos h2]; exact ih m mv 0 m mv (by omega)
          · rw [if_neg h2]; exact ih m mv 0 best bv (by omega)
        · rw [if_neg h1]
          by_cases h2 : mv = cv
          · rw [if_pos h2]
            by_cases h3 : sc + 1 ≥ maxSw
            · rw [if_pos h3]
              have hsc1 : sc + 1 = maxSw := by omega
              dsimp only
              exact ⟨le_of_eq hsc1, by simp [hsc1]⟩
            · rw [if_neg h3]
              by_cases h4 : cv < bv
              · rw [if_pos h4]; exact ih m cv (sc + 1) m cv (by omega)
              · rw [if_neg h4]; exact ih m cv (sc + 1) best bv (by omega)
          · rw [if_neg h2]
            dsimp only
            refine ⟨le_of_lt hsc, ?_, ?_⟩
            · intro h; exact absurd h (by simp)
            · intro h; exact absurd h (by omega)

theorem pickBestLe_nil (f : BPState → ℚ) : pickBestLe f [] = none := rfl

theorem rrFold_inv (f : BPState → ℚ) (baseRun : BPState → BPState)
    (restartInit : Nat → BPState) (s0 : BPState) (l : List Nat) :
    ∀ acc : BPState × ℚ, acc.2 = f acc.1 →
      (l.foldl (rrStep f baseRun restartInit s0) acc).2 ≤ acc.2
      ∧ (l.foldl (rrStep f baseRun restartInit s0) acc).2
          = f (l.foldl (rrStep f baseRun restartInit s0) acc).1 := by
  induction l with
  | nil => intro acc hacc; exact ⟨le_refl _, hacc⟩
  | cons r l ih =>
    intro acc hacc
    rw [List.foldl_cons]
    unfold rrStep
    dsimp only
    by_cases h : f (baseRun (if r = 0 then s0 else restartInit r)) < acc.2
    · rw [if_pos h]
      have := ih (baseRun (if r = 0 then s0 else restartInit r),
        f (baseRun (if r = 0 then s0 else restartInit r))) rfl
      exact ⟨le_trans this.1 (le_of_lt h), this.2⟩
    · rw [if_neg h]
      exact ih acc hacc

theorem saDecision_prob_bounds (delta T : ℚ) (u' : ℝ) :
    0 ≤ (saDecision delta T u').2 ∧ (saDecision delta T u').2 ≤ 1 := by
  unfold saDecision
  by_cases h1 : delta < 0
  · rw [if_pos h1]; norm_num
  · rw [if_neg h1]
    by_cases h2 : delta = 0
    · rw [if_pos h2]; norm_num
    · rw [if_neg h2]
      dsimp only
      unfold saAcceptanceProb
      by_cases h3 : 0 < T
      · rw [if_pos h3]
        refine ⟨le_of_lt (Real.exp_pos _), ?_⟩
        rw [Real.exp_le_one_iff]
        have hd : 0 < delta := lt_of_le_of_ne (not_lt.mp h1) (Ne.symm h2)
        have hdr : (0 : ℝ) < (delta : ℝ) := by exact_mod_cast hd
        have hT : (0 : ℝ) < (T : ℝ) := by exact_mod_cast h3
        have := div_pos hdr hT
        linarith
      · rw [if_neg h3]; norm_num

theorem saStep_bestValue_le (f : BPState → ℚ) (neigh : Nat → BPState → BPState)
    (u : Nat → ℝ) (coolingRate : ℚ) (iter : Nat) (st : SAState) :
    (saStep f neigh u coolingRate iter st).bestValue ≤ st.bestValue := by
  unfold saStep
  dsimp only
  by_cases h : (if (saDecision (f (neigh iter st.cur) - st.cv) st.temp
      (u iter)).1 then f (neigh iter st.cur) else st.cv) < st.bestValue
  · rw [if_pos h]; exact le_of_lt h
  · rw [if_neg h]

theorem saStep_probLog (f : BPState → ℚ) (neigh : Nat → BPState → BPState)
    (u : Nat → ℝ) (coolingRate : ℚ) (iter : Nat) (st : SAState) :
    (saStep f neigh u coolingRate iter st).probLog
      = st.probLog
        ++ [(saDecision (f (neigh iter st.cur) - st.cv) st.temp (u iter)).2] :=
  rfl

theorem forall_append_one {P : ℝ → Prop} (l : List ℝ) (x : ℝ)
    (hl : l.Forall P) (hx : P x) : (l ++ [x]).Forall P := by
  rw [List.forall_iff_forall_mem] at hl ⊢
  intro y hy
  rcases List.mem_append.mp hy with h | h
  · exact hl y h
  · rw [List.mem_singleton] at h
    exact h ▸ hx

theorem saLoop_bestValue_le (f : BPState → ℚ)
    (neigh : Nat → BPState → BPState) (u : Nat → ℝ) (coolingRate : ℚ) :
    ∀ (fuel iter : Nat) (st : SAState),
      (saLoop f neigh u coolingRate fuel iter st).bestValue ≤ st.bestValue := by
  intro fuel
  induction fuel with
  | zero => intro iter st; rw [saLoop]
  | succ n ih =>
    intro iter st
    rw [saLoop]
    exact le_trans (ih (iter + 1) _)
      (saStep_bestValue_le f neigh u coolingRate iter st)

theorem saLoop_probLog_bounds (f : BPState → ℚ)
    (neigh : Nat → BPState → BPState) (u : Nat → ℝ) (coolingRate : ℚ) :
    ∀ (fuel iter : Nat) (st : SAState),
      st.probLog.Forall (fun p => 0 ≤ p ∧ p ≤ 1) →
      (saLoop f neigh u coolingRate fuel iter st).probLog.Forall
        (fun p => 0 ≤ p ∧ p ≤ 1) := by
  intro fuel
  induction fuel with
  | zero => intro iter st h; rw [saLoop]; exact h
  | succ n ih =>
    intro iter st h
    rw [saLoop]
    refine ih (iter + 1) _ ?_
    rw [saStep_probLog]
    exact forall_append_one _ _ h (saDecision_prob_bounds _ _ _)

theorem gaLoop_pop_two (f : BPState → ℚ) (items : List (String × Nat))
    (cap : Nat) (draws : Nat → List Nat)
    (shuf : Nat → List String → List String)
    (muta : Nat → BPState → BPState) (dflt : BPState) :
    ∀ (fuel : Nat) (st : GAState), 1 ≤ fuel →
      ((gaLoop f items cap draws shuf muta dflt fuel st).pop).length = 2
      ∧ ((gaLoop f items cap draws shuf muta dflt fuel st).fitness).length
          = 2 := by
  intro fuel
  induction fuel with
  | zero => intro st h; omega
  | succ n ih =>
    intro st _
    rw [gaLoop]
    cases n with
    | zero => rw [gaLoop]; exact ⟨rfl, rfl⟩
    | succ m => exact ih _ (by omega)

/-- C4 — in all six search drivers the final `best_value` never exceeds the
objective value of the caller-supplied initial state (the best is seeded
with the initial evaluation and only ever replaced by strictly smaller
values); for the hill-climbing drivers the final value is moreover the
evaluation of the returned state; and `GeneticAlgorithm.solve` returns the
original `initial_state` itself whenever the tracked global best-ever is
worse than the initial objective. -/
theorem C4_monotonic_best :
    (∀ (f : BPState → ℚ) (maxIter : Nat) (s0 : BPState),
      (steepestSolve f maxIter s0).2 ≤ f s0
      ∧ (steepestSolve f maxIter s0).2 = f (steepestSolve f maxIter s0).1)
    ∧ (∀ (f : BPState → ℚ) (pick : Nat → Nat) (maxIter : Nat) (s0 : BPState),
      (stochasticSolve f pick maxIter s0).2 ≤ f s0
      ∧ (stochasticSolve f pick maxIter s0).2
          = f (stochasticSolve f pick maxIter s0).1)
    ∧ (∀ (f : BPState → ℚ) (maxSw maxIter : Nat) (s0 : BPState),
      (sidewaysSolve f maxSw maxIter s0).bestValue ≤ f s0)
    ∧ (∀ (f : BPState → ℚ) (baseRun : BPState → BPState) (maxRestarts : Nat)
        (restartInit : Nat → BPState) (s0 : BPState),
      (rrSolve f baseRun maxRestarts restartInit s0).2 ≤ f s0
      ∧ (rrSolve f baseRun maxRestarts restartInit s0).2
          = f (rrSolve f baseRun maxRestarts restartInit s0).1)
    ∧ (∀ (f : BPState → ℚ) (neigh : Nat → BPState → BPState) (u : Nat → ℝ)
        (maxIter : Nat) (initTemp coolingRate : ℚ) (s0 : BPState),
      (saSolve f neigh u maxIter initTemp coolingRate s0).bestValue ≤ f s0)
    ∧ (∀ (f : BPState → ℚ) (items : List (String × Nat)) (cap : Nat)
        (draws : Nat → List Nat) (shuf : Nat → List String → List String)
        (muta : Nat → BPState → BPState) (extras : List BPState)
        (maxIter : Nat) (s0 : BPState),
      (gaSolve f items cap draws shuf muta extras maxIter s0).2 ≤ f s0
      ∧ (∀ (gv : ℚ) (gs : BPState),
          (gaFinal f items cap draws shuf muta extras maxIter s0).globalBest
            = some (gv, gs) →
          f s0 < gv →
          gaSolve f items cap draws shuf muta extras maxIter s0
            = (s0, f s0))) := by
  refine ⟨?_, ?_, ?_, ?_, ?_, ?_⟩
  · intro f maxIter s0
    exact steepestLoop_mono f maxIter s0 (f s0) s0 (f s0) rfl
  · intro f pick maxIter s0
    exact stochasticLoop_mono f pick maxIter 0 s0 (f s0) s0 (f s0) rfl
  · intro f maxSw maxIter s0
    exact sidewaysLoop_mono f maxSw maxIter s0 (f s0) 0 s0 (f s0)
  · intro f baseRun maxRestarts restartInit s0
    exact rrFold_inv f baseRun restartInit s0 (List.range maxRestarts)
      (s0, f s0) rfl
  · intro f neigh u maxIter initTemp coolingRate s0
    exact saLoop_bestValue_le f neigh u coolingRate maxIter 0 _
  · intro f items cap draws shuf muta extras maxIter s0
    constructor
    · unfold gaSolve
      cases hgb : (gaFinal f items cap draws shuf muta extras maxIter
          s0).globalBest with
      | none => exact le_refl _
      | some p =>
        obtain ⟨gv, gs⟩ := p
        dsimp only
        by_cases h : gv > f s0
        · rw [if_pos h]
        · rw [if_neg h]; exact not_lt.mp h
    · intro gv gs hgb hlt
      unfold gaSolve
      rw [hgb]
      dsimp only
      rw [if_pos hlt]

/-- Single-item initial state used by the driver witnesses. -/
def sOne : BPState := ⟨[("A", 1)], 10, [["A"]]⟩

/-- A stand-in for a two-container mutation result, worse than `sOne` under
the witness evaluation. -/
def sBad : BPState := ⟨[("A", 1)], 10, [["A"], ["A"]]⟩

/-- Witness evaluation: 1 for at most one container, 2 otherwise. -/
def fCount (s : BPState) : ℚ := if s.containers.length ≤ 1 then 1 else 2

theorem C4_monotonic_best_witness :
    (gaFinal fCount [("A", 1)] 10 (fun _ => [0]) (fun _ l => l)
        (fun _ _ => sBad) [] 1 sOne).globalBest = some (2, sBad)
    ∧ fCount sOne < 2
    ∧ gaSolve fCount [("A", 1)] 10 (fun _ => [0]) (fun _ l => l)
        (fun _ _ => sBad) [] 1 sOne = (sOne, fCount sOne) := by
  have hgb : (gaFinal fCount [("A", 1)] 10 (fun _ => [0]) (fun _ l => l)
      (fun _ _ => sBad) [] 1 sOne).globalBest = some (2, sBad) := by decide
  refine ⟨hgb, by decide, ?_⟩
  exact (C4_monotonic_best.2.2.2.2.2 fCount [("A", 1)] 10 (fun _ => [0])
    (fun _ l => l) (fun _ _ => sBad) [] 1 sOne).2 2 sBad hgb (by decide)

/-- C8 (amended) — provided `max_sideways_moves ≥ 1`: the recorded
`total_sideways_moves` never exceeds `max_sideways_moves`, and the run stops
with "max_sideways_reached" exactly when the sideways counter (reset on
improvement, incremented on an equal-value best neighbor) reaches
`max_sideways_moves`; independently of the bound, whenever the
`<=`-minimum neighbor evaluates worse than the current value the loop stops
with "local_optimum" and changes nothing else. -/
theorem C8_sideways_bound :
    (∀ (f : BPState → ℚ) (maxSw maxIter : Nat) (s0 : BPState), 1 ≤ maxSw →
      (sidewaysSolve f maxSw maxIter s0).sidewaysCount ≤ maxSw
      ∧ ((sidewaysSolve f maxSw maxIter s0).stuckReason
            = some SWStop.maxSidewaysReached
          ↔ (sidewaysSolve f maxSw maxIter s0).sidewaysCount = maxSw))
    ∧ (∀ (f : BPState → ℚ) (maxSw fuel : Nat) (cur : BPState) (cv : ℚ)
        (sc : Nat) (best : BPState) (bv : ℚ) (m : BPState) (mv : ℚ),
      pickBestLe f (allNeighbors cur) = some (m, mv) → cv < mv →
      sidewaysLoop f maxSw (fuel + 1) cur cv sc best bv
        = ⟨best, bv, sc, some SWStop.localOptimum⟩) := by
  constructor
  · intro f maxSw maxIter s0 hm
    exact sidewaysLoop_inv f maxSw hm maxIter s0 (f s0) 0 s0 (f s0)
      (by omega)
  · intro f maxSw fuel cur cv sc best bv m mv hpick hcv
    have hns : allNeighbors cur ≠ [] := by
      intro h
      rw [h, pickBestLe_nil] at hpick
      exact absurd hpick (by simp)
    rw [sidewaysLoop, if_neg hns, hpick]
    dsimp only
    rw [if_neg (not_lt.mpr (le_of_lt hcv)), if_neg (ne_of_gt hcv)]

/-- Two unit-size items that cannot share a container: every neighbor is
either invalid (both items in one container) or again a two-container
state. -/
def exTiny : BPState := ⟨[("A", 2), ("B", 2)], 2, [["A"], ["B"]]⟩

/-- Plateau evaluation for `exTiny`: invalid states score 3, multi-container
states 2, single-container states 1 — so the best neighbor of `exTiny` ties
the current value. -/
def tinyEval (s : BPState) : ℚ :=
  if s.is_valid then (if s.num_containers ≤ 1 then 1 else 2) else 3

/-- C8 counterexample — with `max_sideways_moves = 0` the very first
sideways move drives the counter to 1 before the `>=` check fires, so the
recorded total (1) exceeds `max_sideways_moves` (0). -/
theorem C8_sideways_bound_counterexample :
    (sidewaysSolve tinyEval 0 1 exTiny).sidewaysCount = 1
    ∧ (sidewaysSolve tinyEval 0 1 exTiny).stuckReason
        = some SWStop.maxSidewaysReached
    ∧ ¬ (sidewaysSolve tinyEval 0 1 exTiny).sidewaysCount ≤ 0 := by
  refine ⟨by decide, by decide, by decide⟩

/-- Both items packed into one (tight) container: its two neighbors are the
two ways of splitting it. -/
def exPair : BPState := ⟨[("A", 2), ("B", 2)], 2, [["A", "B"]]⟩

/-- Evaluation that makes `exPair` a strict local optimum: `exPair` itself
scores 0, everything else 2. -/
def pairEval (s : BPState) : ℚ := if s = exPair then 0 else 2

/-- The split state that the `<=`-minimum scan of `exPair`'s neighbors
returns (the last tie wins). -/
def exPairSplit : BPState := ⟨[("A", 2), ("B", 2)], 2, [["A"], ["B"]]⟩

theorem C8_sideways_bound_witness :
    (1 ≤ 1
      ∧ (sidewaysSolve tinyEval 1 1 exTiny).sidewaysCount ≤ 1
      ∧ ((sidewaysSolve tinyEval 1 1 exTiny).stuckReason
            = some SWStop.maxSidewaysReached
          ↔ (sidewaysSolve tinyEval 1 1 exTiny).sidewaysCount = 1))
    ∧ (pickBestLe pairEval (allNeighbors exPair) = some (exPairSplit, 2)
      ∧ (0 : ℚ) < 2
      ∧ sidewaysLoop pairEval 5 1 exPair 0 0 exPair 0
          = ⟨exPair, 0, 0, some SWStop.localOptimum⟩) := by
  have h1 := C8_sideways_bound.1 tinyEval 1 1 exTiny (by decide)
  have hpick : pickBestLe pairEval (allNeighbors exPair)
      = some (exPairSplit, 2) := by decide
  exact ⟨⟨by decide, h1.1, h1.2⟩,
    hpick, by decide,
    C8_sideways_bound.2 pairEval 5 0 exPair 0 0 exPair 0 exPairSplit 2
      hpick (by decide)⟩

/-- C5 — the SA acceptance rule: `delta ≤ 0` accepts unconditionally with
logged probability 1; `delta > 0` with positive temperature accepts exactly
when the one uniform draw falls below `exp(-delta/temperature)`;
non-positive temperature forces probability 0 (and rejection for any
non-negative draw); and every entry of the `acceptance_probs` log of a full
`SimulatedAnnealing.solve` run lies in `[0, 1]`. -/
theorem C5_sa_acceptance :
    (∀ (delta T : ℚ) (u' : ℝ), delta ≤ 0 → saDecision delta T u' = (true, 1))
    ∧ (∀ (delta T : ℚ) (u' : ℝ), 0 < delta → 0 < T →
        ((saDecision delta T u').1 = true
          ↔ u' < Real.exp (-((delta : ℝ) / (T : ℝ)))))
    ∧ (∀ (delta T : ℚ) (u' : ℝ), 0 < delta → T ≤ 0 →
        (saDecision delta T u').2 = 0
        ∧ (0 ≤ u' → (saDecision delta T u').1 = false))
    ∧ (∀ (f : BPState → ℚ) (neigh : Nat → BPState → BPState) (u : Nat → ℝ)
        (maxIter : Nat) (initTemp coolingRate : ℚ) (s0 : BPState),
      (saSolve f neigh u maxIter initTemp coolingRate s0).probLog.Forall
        (fun p => 0 ≤ p ∧ p ≤ 1)) := by
  refine ⟨?_, ?_, ?_, ?_⟩
  · intro delta T u' hle
    unfold saDecision
    by_cases h : delta < 0
    · rw [if_pos h]
    · rw [if_neg h, if_pos (le_antisymm hle (not_lt.mp h))]
  · intro delta T u' hd hT
    unfold saDecision
    rw [if_neg (not_lt.mpr (le_of_lt hd)), if_neg (ne_of_gt hd)]
    unfold saAcceptanceProb
    rw [if_pos hT]
    dsimp only
    by_cases hu : u' < Real.exp (-((delta : ℝ) / (T : ℝ)))
    · simp [hu]
    · simp [hu]
  · intro delta T u' hd hT
    unfold saDecision
    rw [if_neg (not_lt.mpr (le_of_lt hd)), if_neg (ne_of_gt hd)]
    unfold saAcceptanceProb
    rw [if_neg (not_lt.mpr hT)]
    refine ⟨rfl, ?_⟩
    intro hu
    rw [if_neg (not_lt.mpr hu)]
  · intro f neigh u maxIter initTemp coolingRate s0
    exact saLoop_probLog_bounds f neigh u coolingRate maxIter 0 _ (by
      simp [List.Forall])

theorem C5_sa_acceptance_witness :
    ((-1 : ℚ) ≤ 0 ∧ saDecision (-1) 1 0 = (true, 1))
    ∧ ((0 : ℚ) < 1 ∧ (-1 : ℚ) ≤ 0
      ∧ (saDecision 1 (-1) 0).2 = 0 ∧ (saDecision 1 (-1) 0).1 = false) := by
  refine ⟨⟨by decide, C5_sa_acceptance.1 (-1) 1 0 (by decide)⟩,
    by decide, by decide, ?_, ?_⟩
  · exact (C5_sa_acceptance.2.2.1 1 (-1) 0 (by decide) (by decide)).1
  · exact (C5_sa_acceptance.2.2.1 1 (-1) 0 (by decide) (by decide)).2
      (le_refl 0)

/-- C10 — every generation of `GeneticAlgorithm.solve` replaces the whole
population with exactly the two (possibly mutated) crossover children, so
after any generation the population and its fitness list have size 2,
whatever `population_size` was; from the second generation on every
tournament draws from those two individuals only. -/
theorem C10_population_two :
    (∀ (f : BPState → ℚ) (items : List (String × Nat)) (cap : Nat)
        (draws : Nat → List Nat) (shuf : Nat → List String → List String)
        (muta : Nat → BPState → BPState) (dflt : BPState) (st : GAState),
      (gaGenStep f items cap draws shuf muta dflt st).pop
        = [muta (2 * st.gen) (crossover items cap
            ((tournament_selection st.pop dflt st.fitness
              (draws st.gen)).getD 0 dflt)
            ((tournament_selection st.pop dflt st.fitness
              (draws st.gen)).getD 1 dflt)
            (shuf (2 * st.gen)) (shuf (2 * st.gen + 1))).1,
          muta (2 * st.gen + 1) (crossover items cap
            ((tournament_selection st.pop dflt st.fitness
              (draws st.gen)).getD 0 dflt)
            ((tournament_selection st.pop dflt st.fitness
              (draws st.gen)).getD 1 dflt)
            (shuf (2 * st.gen)) (shuf (2 * st.gen + 1))).2])
    ∧ (∀ (f : BPState → ℚ) (items : List (String × Nat)) (cap : Nat)
        (draws : Nat → List Nat) (shuf : Nat → List String → List String)
        (muta : Nat → BPState → BPState) (dflt : BPState) (fuel : Nat)
        (st : GAState), 1 ≤ fuel →
      ((gaLoop f items cap draws shuf muta dflt fuel st).pop).length = 2
      ∧ ((gaLoop f items cap draws shuf muta dflt fuel st).fitness).length
          = 2) := by
  constructor
  · intro f items cap draws shuf muta dflt st
    rfl
  · intro f items cap draws shuf muta dflt fuel st h
    exact gaLoop_pop_two f items cap draws shuf muta dflt fuel st h

theorem C10_population_two_witness :
    1 ≤ 1
    ∧ ((gaLoop (fun _ => 0) [("A", 1)] 10 (fun _ => [0]) (fun _ l => l)
        (fun _ s => s) sOne 1 ⟨[sOne], [0], none, 0⟩).pop).length = 2 := by
  refine ⟨by decide, ?_⟩
  exact (C10_population_two.2 (fun _ => 0) [("A", 1)] 10 (fun _ => [0])
    (fun _ l => l) (fun _ s => s) sOne 1 ⟨[sOne], [0], none, 0⟩
    (by decide)).1
